import Mathlib

/-!
# Digital Residue Exchange Portal — verification of the API contract

Shallow embedding of the server in `src/server.js`: a Node/Express CRUD API over
a SQLite `uploads` table (plus a `comments` table), with blobs on the local
filesystem and an hourly expiry sweep.

Modelling conventions:
* The database is a `ServerState`: the `uploads` and `comments` tables as lists
  of rows, the blob directory as a list of stored filenames, and the
  AUTOINCREMENT counters.
* `upload_date` / `created_at` are kept as the strings SQLite stores
  (`CURRENT_TIMESTAMP` produces `YYYY-MM-DD HH:MM:SS`); SQLite compares TEXT
  with binary collation, i.e. lexicographically, which `lexLe` below embeds.
* `expires_at` is modelled as milliseconds since the epoch (`Option Nat`).
  The source stores `Date#toISOString` strings and compares them with SQL
  `<=`; ISO-8601 UTC strings of that fixed shape are ordered lexicographically
  exactly as their time values, so `Nat` with `≤` is an order-faithful model.
* `Math.random()`-driven choices are modelled by explicit inputs: the secret
  code generator takes the sequence of random draws as a function argument.
* JavaScript truthiness tests on request fields (`!secret_code`, `if (q)`)
  are embedded by `jsTruthy` on `Option String` (absent or empty ⇒ falsy).
-/

namespace DigitalResidue

/-- server.js:10 — `const ADMIN_SECRET = '../../'`. -/
def ADMIN_SECRET : String := "../../"

/-- server.js:125 — the secret-code alphabet (`no confusing chars`). -/
def secretAlphabet : String := "ABCDEFGHJKLMNPQRSTUVWXYZ23456789"

/-- Embeds `generateSecretCode` (server.js:124-131). The i-th
`Math.floor(Math.random() * alphabet.length)` draw is modelled by
`rand i % alphabet.length`, an arbitrary in-range index. -/
def generateSecretCode (rand : Nat → Nat) : String :=
  String.mk ((List.range 6).map fun i =>
    secretAlphabet.data.getD (rand i % secretAlphabet.data.length) 'A')

/-- One day in milliseconds. -/
def MS_PER_DAY : Nat := 86400000

/-- Embeds `computeExpiryFromSelection` (server.js:133-153). The source's
`1m` branch advances the date by one calendar month via `Date#setMonth`;
it is modelled here as 30 days. No theorem in this file depends on the
numeric offsets of the recognized branches, only on which selections
produce a non-null expiry. -/
def computeExpiryFromSelection (nowMs : Nat) (selection : String) : Option Nat :=
  if selection = "1d" then some (nowMs + MS_PER_DAY)
  else if selection = "1w" then some (nowMs + 7 * MS_PER_DAY)
  else if selection = "2w" then some (nowMs + 14 * MS_PER_DAY)
  else if selection = "1m" then some (nowMs + 30 * MS_PER_DAY)
  else none

/-- JavaScript truthiness of an optional request/query string:
`undefined` and `''` are falsy, every other string is truthy. -/
def jsTruthy : Option String → Bool
  | none => false
  | some s => s != ""

/-- JavaScript `String#startsWith`. -/
def strStartsWith (s pre : String) : Bool :=
  pre.data.isPrefixOf s.data

/-- JavaScript `String#trim`: strip whitespace from both ends. -/
def jsTrim (s : String) : String :=
  String.mk (((s.data.dropWhile Char.isWhitespace).reverse.dropWhile
    Char.isWhitespace).reverse)

/-- JavaScript `String#slice(0, n)`: the first `n` units. -/
def jsSlice (s : String) (n : Nat) : String :=
  String.mk (s.data.take n)

/-- One row of the `uploads` table (server.js:54-69 plus the
`secret_code` / `expires_at` migration columns). -/
structure UploadRow where
  id : Nat
  title : String
  description : String
  tags : String
  filename : String
  original_name : String
  uploader_name : String
  like_count : Nat
  download_count : Nat
  upload_date : String
  secret_code : String
  expires_at : Option Nat
  deriving Repr, DecidableEq

/-- The ten columns every read query selects (server.js:112, 208, 253,
302, 324) — note: no `secret_code`, no `expires_at`. -/
structure UploadView where
  id : Nat
  title : String
  description : String
  tags : String
  filename : String
  original_name : String
  uploader_name : String
  like_count : Nat
  download_count : Nat
  upload_date : String
  deriving Repr, DecidableEq

/-- Projection performed by the read queries' column list. -/
def UploadRow.toView (r : UploadRow) : UploadView :=
  ⟨r.id, r.title, r.description, r.tags, r.filename, r.original_name,
   r.uploader_name, r.like_count, r.download_count, r.upload_date⟩

/-- One row of the `comments` table (server.js:340-347). -/
structure CommentRow where
  id : Nat
  upload_id : Nat
  name : String
  comment : String
  created_at : String
  deriving Repr, DecidableEq

/-- Columns selected by the comment listing (server.js:351). -/
structure CommentView where
  id : Nat
  name : String
  comment : String
  created_at : String
  deriving Repr, DecidableEq

/-- Projection performed by the comment listing's column list. -/
def CommentRow.toView (c : CommentRow) : CommentView :=
  ⟨c.id, c.name, c.comment, c.created_at⟩

/-- The persistent state: both tables, the `uploads/` blob directory,
and the AUTOINCREMENT counters. -/
structure ServerState where
  uploads : List UploadRow
  comments : List CommentRow
  blobs : List String
  nextUploadId : Nat
  nextCommentId : Nat
  deriving Repr, DecidableEq

/-! ## Text comparison and LIKE matching (SQLite semantics) -/

/-- Lexicographic order on character lists: SQLite's BINARY collation on
the ASCII datetime strings stored by this schema. -/
def lexLe : List Char → List Char → Bool
  | [], _ => true
  | _ :: _, [] => false
  | a :: as, b :: bs => if a < b then true else if b < a then false else lexLe as bs

/-- Embeds the SQLite `LIKE` operator: `%` matches any sequence (the rest
of the pattern must match some suffix of the text), `_` any single
character, other characters match ASCII-case-insensitively (SQLite folds
only A-Z, as does `Char.toLower`). -/
def likeMatch : List Char → List Char → Bool
  | [], ts => ts.isEmpty
  | p :: ps, ts =>
    if p = '%' then
      (List.range (ts.length + 1)).any fun n => likeMatch ps (ts.drop n)
    else
      match ts with
      | [] => false
      | t :: ts2 =>
        if p = '_' then likeMatch ps ts2
        else (p.toLower == t.toLower) && likeMatch ps ts2

/-- `column LIKE '%' + needle + '%'` as built by the search handler
(server.js:211-219). -/
def sqlLikeContains (hay needle : String) : Bool :=
  likeMatch (('%' :: needle.data) ++ ['%']) hay.data

/-- `needle` occurs as a contiguous run inside `hay`. -/
def isSubstrOf : List Char → List Char → Bool
  | needle, [] => needle.isEmpty
  | needle, h :: t => needle.isPrefixOf (h :: t) || isSubstrOf needle t

/-- Plain (case-sensitive) substring containment, the spec's wording for
the tag filter. -/
def containsCS (hay needle : String) : Bool :=
  isSubstrOf needle.data hay.data

/-- ASCII-case-insensitive substring containment, the spec's wording for
the free-text filter. -/
def containsCI (hay needle : String) : Bool :=
  isSubstrOf (needle.data.map Char.toLower) (hay.data.map Char.toLower)

/-- A string free of the SQL LIKE metacharacters `%` and `_`. -/
def noWildcards (s : String) : Bool :=
  s.data.all fun c => c != '%' && c != '_'

/-! ## Query Service -/

/-- `ORDER BY upload_date DESC`: the earlier view has the later (or equal) date. -/
abbrev dateOrder (a b : UploadView) : Prop :=
  lexLe b.upload_date.data a.upload_date.data = true

/-- Embeds `GET /api/uploads` (server.js:111-121). -/
def listUploads (s : ServerState) : List UploadView :=
  List.insertionSort dateOrder (s.uploads.map UploadRow.toView)

/-- Embeds `GET /api/uploads/:id` (server.js:322-337); `none` is the 404 case. -/
def getUpload (s : ServerState) (id : Nat) : Option UploadView :=
  (s.uploads.find? fun r => r.id == id).map UploadRow.toView

/-- The WHERE clause built by `GET /api/search` (server.js:206-221): each
truthy parameter contributes a LIKE conjunct. -/
def searchMatches (q tag : Option String) (r : UploadRow) : Bool :=
  (if jsTruthy q then
      sqlLikeContains r.title (q.getD "") || sqlLikeContains r.description (q.getD "")
    else true) &&
  (if jsTruthy tag then sqlLikeContains r.tags (tag.getD "") else true)

/-- Embeds `GET /api/search` (server.js:206-230). -/
def search (s : ServerState) (q tag : Option String) : List UploadView :=
  List.insertionSort dateOrder ((s.uploads.filter (searchMatches q tag)).map UploadRow.toView)

/-- `strftime('%m', upload_date)` on the stored `YYYY-MM-DD HH:MM:SS`
strings: the two month digits. -/
def monthOfDate (d : String) : String :=
  String.mk ((d.data.drop 5).take 2)

/-- JavaScript `month.padStart(2, '0')` for the strings this route sees. -/
def padStart2 (s : String) : String :=
  if s.data.length = 0 then "00"
  else if s.data.length = 1 then String.mk ('0' :: s.data) else s

/-- The optional month restriction of `GET /api/leaderboard` (server.js:305-308). -/
def monthMatches (month : Option String) (r : UploadRow) : Bool :=
  if jsTruthy month then monthOfDate r.upload_date == padStart2 (month.getD "") else true

/-- `ORDER BY like_count DESC, download_count DESC`. -/
abbrev lbOrder (a b : UploadView) : Prop :=
  b.like_count < a.like_count ∨
    (a.like_count = b.like_count ∧ b.download_count ≤ a.download_count)

/-- Embeds `GET /api/leaderboard` (server.js:300-319). -/
def leaderboard (s : ServerState) (month : Option String) : List UploadView :=
  List.insertionSort lbOrder ((s.uploads.filter (monthMatches month)).map UploadRow.toView)

/-- `ORDER BY created_at DESC` for comments. -/
abbrev commentDateOrder (a b : CommentView) : Prop :=
  lexLe b.created_at.data a.created_at.data = true

/-- Embeds `GET /api/uploads/:id/comments` (server.js:349-355). -/
def listComments (s : ServerState) (id : Nat) : List CommentView :=
  List.insertionSort commentDateOrder
    ((s.comments.filter fun c => c.upload_id == id).map CommentRow.toView)

/-! ## Upload Service

`POST /api/upload` runs in two stages: the `upload.single('file')` multer
middleware (server.js:25-41) first writes any incoming file to the
`uploads/` directory under a generated name, and only then does the route
handler (server.js:155-203) validate and insert the row. -/

/-- The parsed `req.file` produced by multer. `filename` is the generated
on-disk name, `originalname` the client-supplied one. -/
structure FilePayload where
  filename : String
  originalname : String
  mimetype : String
  deriving Repr, DecidableEq

/-- The multipart request body for `POST /api/upload`. -/
structure UploadReq where
  file : Option FilePayload
  title : Option String
  description : Option String
  tags : Option String
  uploader_name : Option String
  auto_delete : Option String

/-- Outcome of `POST /api/upload`: the 200 payload fields, or one of the
400 rejections. -/
inductive UploadOutcome
  | ok (id : Nat) (filename : String) (secret_code : String) (expires_at : Option Nat)
  | noFile
  | notImage
  | missingFields
  deriving Repr, DecidableEq

/-- The rejected outcomes (HTTP 400). -/
def UploadOutcome.isRejected : UploadOutcome → Bool
  | .ok _ _ _ _ => false
  | _ => true

/-- The multer disk-storage stage: when a file part is present it is
written to `uploads/` before the route handler runs (server.js:25-41). -/
def multerStore (req : UploadReq) (s : ServerState) : ServerState :=
  match req.file with
  | none => s
  | some f => { s with blobs := f.filename :: s.blobs }

/-- The `POST /api/upload` route handler body (server.js:155-203):
validation, secret-code generation, expiry computation, row insert. -/
def handleUpload (rand : Nat → Nat) (nowStr : String) (nowMs : Nat)
    (req : UploadReq) (s : ServerState) : UploadOutcome × ServerState :=
  match req.file with
  | none => (.noFile, s)
  | some f =>
    if !(f.mimetype != "" && strStartsWith f.mimetype "image/") then (.notImage, s)
    else if !(jsTruthy req.title && jsTruthy req.uploader_name) then (.missingFields, s)
    else
      let secretCode := generateSecretCode rand
      let expiresAt := computeExpiryFromSelection nowMs (req.auto_delete.getD "")
      let row : UploadRow :=
        { id := s.nextUploadId
          title := req.title.getD ""
          description := req.description.getD ""
          tags := req.tags.getD ""
          filename := f.filename
          original_name := f.originalname
          uploader_name := req.uploader_name.getD ""
          like_count := 0
          download_count := 0
          upload_date := nowStr
          secret_code := secretCode
          expires_at := expiresAt }
      (.ok s.nextUploadId f.filename secretCode expiresAt,
       { s with uploads := s.uploads ++ [row], nextUploadId := s.nextUploadId + 1 })

/-- The whole `POST /api/upload` pipeline: multer storage stage, then the
route handler. -/
def processUpload (rand : Nat → Nat) (nowStr : String) (nowMs : Nat)
    (req : UploadReq) (s : ServerState) : UploadOutcome × ServerState :=
  handleUpload rand nowStr nowMs req (multerStore req s)

/-! ## Mutation Service -/

/-- The JSON body of `PUT /api/uploads/:id`. `some` means the field was
present (as a string) in the body. -/
structure UpdateReq where
  secret_code : Option String
  title : Option String
  description : Option String
  tags : Option String

/-- Outcome of `PUT /api/uploads/:id`. -/
inductive UpdateResult
  | updated
  | missingSecret
  | notFound
  | forbidden
  | noFields
  deriving Repr, DecidableEq

/-- The `fields`/`params` list built by the update handler
(server.js:383-391), in source order: `title` only when non-empty after
trimming, then `description`, then `tags`. -/
def collectUpdateFields (title description tags : Option String) :
    List (UploadRow → UploadRow) :=
  (match title with
   | some x => if jsTrim x != "" then [fun r => { r with title := jsTrim x }] else []
   | none => []) ++
  (match description with
   | some x => [fun r => { r with description := x }]
   | none => []) ++
  (match tags with
   | some x => [fun r => { r with tags := x }]
   | none => [])

/-- Embeds `PUT /api/uploads/:id` (server.js:369-400). -/
def updateUpload (s : ServerState) (id : Nat) (req : UpdateReq) :
    UpdateResult × ServerState :=
  if !(jsTruthy req.secret_code) then (.missingSecret, s)
  else
    let code := req.secret_code.getD ""
    match s.uploads.find? (fun r => r.id == id) with
    | none => (.notFound, s)
    | some row =>
      if code != ADMIN_SECRET && row.secret_code != code then (.forbidden, s)
      else
        let fields := collectUpdateFields req.title req.description req.tags
        if fields.isEmpty then (.noFields, s)
        else
          (.updated,
           { s with uploads := s.uploads.map fun r =>
               if r.id == id then fields.foldl (fun r f => f r) r else r })

/-- Outcome of `DELETE /api/uploads/:id`. -/
inductive DeleteResult
  | deleted
  | missingSecret
  | notFound
  | forbidden
  deriving Repr, DecidableEq

/-- Embeds `DELETE /api/uploads/:id` (server.js:403-429): unlink the blob
(a missing file is non-fatal), then `DELETE FROM uploads WHERE id = ?`.
The `comments` table declares `FOREIGN KEY(upload_id) REFERENCES
uploads(id) ON DELETE CASCADE` (server.js:340-347), and the `sqlite3`
driver builds SQLite with `SQLITE_DEFAULT_FOREIGN_KEYS=1`, so the row
deletion cascades to the upload's comments. -/
def deleteUpload (s : ServerState) (id : Nat) (secret_code : Option String) :
    DeleteResult × ServerState :=
  if !(jsTruthy secret_code) then (.missingSecret, s)
  else
    let code := secret_code.getD ""
    match s.uploads.find? (fun r => r.id == id) with
    | none => (.notFound, s)
    | some row =>
      if code != ADMIN_SECRET && row.secret_code != code then (.forbidden, s)
      else
        (.deleted,
         { s with blobs := s.blobs.filter (fun b => b != row.filename)
                  uploads := s.uploads.filter (fun r => !(r.id == id))
                  comments := s.comments.filter (fun c => !(c.upload_id == id)) })

/-- Embeds `POST /api/like/:id` (server.js:233-248): a relative
`like_count = like_count + 1` update; zero changed rows is the 404 case. -/
def likeUpload (s : ServerState) (id : Nat) : Bool × ServerState :=
  if s.uploads.any (fun r => r.id == id) then
    (true,
     { s with uploads := s.uploads.map fun r =>
         if r.id == id then { r with like_count := r.like_count + 1 } else r })
  else (false, s)

/-- Embeds `GET /api/download/:id` (server.js:251-277): look up the row,
increment `download_count` (fire-and-forget), serve the blob under
`original_name`. The payload is the `(stored name, suggested name)` pair. -/
def downloadUpload (s : ServerState) (id : Nat) :
    Option (String × String) × ServerState :=
  match s.uploads.find? (fun r => r.id == id) with
  | none => (none, s)
  | some row =>
    (some (row.filename, row.original_name),
     { s with uploads := s.uploads.map fun r =>
         if r.id == id then { r with download_count := r.download_count + 1 } else r })

/-! ## Comment Service -/

/-- Outcome of `POST /api/uploads/:id/comments`. With foreign-key
enforcement on, inserting a comment for a nonexistent upload fails the
FK constraint and surfaces as a 500 (`dbError`). -/
inductive AddCommentResult
  | added (id : Nat)
  | missingComment
  | dbError
  deriving Repr, DecidableEq

/-- Embeds `POST /api/uploads/:id/comments` (server.js:357-366):
`comment` required non-blank after trimming, `name` clamped to 120 and
`comment` to 4000 units before insert. -/
def addComment (s : ServerState) (id : Nat) (name comment : Option String)
    (now : String) : AddCommentResult × ServerState :=
  match comment with
  | none => (.missingComment, s)
  | some c =>
    if jsTrim c == "" then (.missingComment, s)
    else if s.uploads.any (fun r => r.id == id) then
      (.added s.nextCommentId,
       { s with comments := s.comments ++
           [⟨s.nextCommentId, id, jsSlice (name.getD "") 120, jsSlice c 4000, now⟩]
                nextCommentId := s.nextCommentId + 1 })
    else (.dbError, s)

/-! ## Expiry Sweeper -/

/-- The sweeper's selection predicate (server.js:282):
`expires_at IS NOT NULL AND expires_at <= now`. -/
def expiredB (now : Nat) (r : UploadRow) : Bool :=
  match r.expires_at with
  | some t => decide (t ≤ now)
  | none => false

/-- One iteration of the sweeper's `forEach` (server.js:285-295) on an
eligible row: unlink the blob (`ENOENT` ignored; any other unlink failure
is logged and the row is still deleted), then delete the row — which
cascades to its comments. `unlinkFails` marks blobs whose unlink fails
with a non-`ENOENT` error; `deleteFails` marks rows whose SQL delete
errors (logged, not escalated). -/
def sweepStep (unlinkFails : String → Bool) (deleteFails : Nat → Bool)
    (st : ServerState) (r : UploadRow) : ServerState :=
  let st1 :=
    if unlinkFails r.filename then st
    else { st with blobs := st.blobs.filter (fun b => b != r.filename) }
  if deleteFails r.id then st1
  else
    { st1 with uploads := st1.uploads.filter (fun u => !(u.id == r.id))
               comments := st1.comments.filter (fun c => !(c.upload_id == r.id)) }

/-- Embeds one run of the hourly cleanup job (server.js:280-297): select
the expired rows, then process each independently. -/
def sweepOnce (unlinkFails : String → Bool) (deleteFails : Nat → Bool)
    (now : Nat) (s : ServerState) : ServerState :=
  (s.uploads.filter (expiredB now)).foldl (sweepStep unlinkFails deleteFails) s

/-! ## The operations as a transition system -/

/-- Every state-changing entry point of the server, with its inputs
(random draws and clocks included). -/
inductive Op
  | upload (rand : Nat → Nat) (nowStr : String) (nowMs : Nat) (req : UploadReq)
  | like (id : Nat)
  | download (id : Nat)
  | update (id : Nat) (req : UpdateReq)
  | delete (id : Nat) (secret_code : Option String)
  | comment (id : Nat) (name text : Option String) (now : String)
  | sweep (unlinkFails : String → Bool) (deleteFails : Nat → Bool) (now : Nat)

/-- State effect of each operation. -/
def applyOp (o : Op) (s : ServerState) : ServerState :=
  match o with
  | .upload rand nowStr nowMs req => (processUpload rand nowStr nowMs req s).2
  | .like id => (likeUpload s id).2
  | .download id => (downloadUpload s id).2
  | .update id req => (updateUpload s id req).2
  | .delete id code => (deleteUpload s id code).2
  | .comment id name text now => (addComment s id name text now).2
  | .sweep uf df now => sweepOnce uf df now s

/-- Referential integrity: every comment row references some upload row. -/
def commentsConsistent (s : ServerState) : Prop :=
  ∀ c ∈ s.comments, ∃ u ∈ s.uploads, u.id = c.upload_id

/-! ## Order lemmas for the three ORDER BY relations -/

theorem lexLe_refl : ∀ a : List Char, lexLe a a = true
  | [] => rfl
  | a :: as => by simp [lexLe, lt_irrefl a, lexLe_refl as]

theorem lexLe_total : ∀ a b : List Char, lexLe a b = true ∨ lexLe b a = true
  | [], _ => Or.inl rfl
  | _ :: _, [] => Or.inr rfl
  | a :: as, b :: bs => by
    rcases lt_trichotomy a b with h | h | h
    · exact Or.inl (by simp [lexLe, h])
    · subst h
      rcases lexLe_total as bs with ih | ih
      · exact Or.inl (by simp [lexLe, lt_irrefl a, ih])
      · exact Or.inr (by simp [lexLe, lt_irrefl a, ih])
    · exact Or.inr (by simp [lexLe, h])

theorem lexLe_trans : ∀ {a b c : List Char},
    lexLe a b = true → lexLe b c = true → lexLe a c = true
  | [], _, _, _, _ => rfl
  | _ :: _, [], _, h, _ => by simp [lexLe] at h
  | _ :: _, _ :: _, [], _, h => by simp [lexLe] at h
  | a :: as, b :: bs, c :: cs, h₁, h₂ => by
    simp only [lexLe] at h₁ h₂ ⊢
    by_cases hab : a < b
    · by_cases hbc : b < c
      · simp [lt_trans hab hbc]
      · by_cases hcb : c < b
        · rw [if_neg hbc, if_pos hcb] at h₂; cases h₂
        · have hbceq : b = c := le_antisymm (not_lt.mp hcb) (not_lt.mp hbc)
          subst hbceq; simp [hab]
    · by_cases hba : b < a
      · rw [if_neg hab, if_pos hba] at h₁; cases h₁
      · have habeq : a = b := le_antisymm (not_lt.mp hba) (not_lt.mp hab)
        subst habeq
        rw [if_neg hab, if_neg hba] at h₁
        by_cases hac : a < c
        · simp [hac]
        · by_cases hca : c < a
          · rw [if_neg hac, if_pos hca] at h₂; cases h₂
          · rw [if_neg hac, if_neg hca] at h₂ ⊢
            exact lexLe_trans h₁ h₂

instance : IsTotal UploadView dateOrder :=
  ⟨fun a b => (lexLe_total b.upload_date.data a.upload_date.data).imp id id⟩

instance : IsTrans UploadView dateOrder :=
  ⟨fun _ _ _ hab hbc => lexLe_trans hbc hab⟩

instance : IsTotal CommentView commentDateOrder :=
  ⟨fun a b => (lexLe_total b.created_at.data a.created_at.data).imp id id⟩

instance : IsTrans CommentView commentDateOrder :=
  ⟨fun _ _ _ hab hbc => lexLe_trans hbc hab⟩

instance : IsTotal UploadView lbOrder :=
  ⟨fun a b => by simp only [lbOrder]; omega⟩

instance : IsTrans UploadView lbOrder :=
  ⟨fun a b c hab hbc => by simp only [lbOrder] at *; omega⟩

/-! ## C2 — secret-code format -/

/-- The character class of the spec's regular expression
`[ABCDEFGHJKLMNPQRSTUVWXYZ23456789]{6}`. -/
def codeRegexClass : List Char := "ABCDEFGHJKLMNPQRSTUVWXYZ23456789".data

/-- C2, counterexample: the claim says the code's characters are drawn
from a 33-symbol alphabet; the alphabet in `generateSecretCode` has 32
symbols (24 letters without I and O, 8 digits without 0 and 1). -/
theorem c2_alphabet_has_32_not_33_symbols :
    secretAlphabet.data.length = 32 ∧ secretAlphabet.data.length ≠ 33 := by
  constructor <;> decide

/-- C2 (amended): every generated secret code is exactly 6 characters
long, each character drawn from the 32-symbol ambiguity-free alphabet, so
every generated code matches `[ABCDEFGHJKLMNPQRSTUVWXYZ23456789]{6}`. -/
theorem generateSecretCode_data_length (rand : Nat → Nat) :
    (generateSecretCode rand).data.length = 6 := by
  show ((List.range 6).map fun i =>
    secretAlphabet.data.getD (rand i % secretAlphabet.data.length) 'A').length = 6
  rw [List.length_map, List.length_range]

theorem generateSecretCode_mem_alphabet (rand : Nat → Nat) :
    ∀ c ∈ (generateSecretCode rand).data, c ∈ secretAlphabet.data := by
  intro c hc
  simp only [generateSecretCode] at hc
  rcases List.mem_map.mp hc with ⟨i, _, rfl⟩
  have hlt : rand i % secretAlphabet.data.length < secretAlphabet.data.length :=
    Nat.mod_lt _ (by decide)
  rw [List.getD_eq_getElem secretAlphabet.data 'A' hlt]
  exact List.getElem_mem _

/-- A generated code is never the operator override (which contains `/`
and `.`, characters outside the alphabet) and never empty. -/
theorem generateSecretCode_ne_admin (rand : Nat → Nat) :
    generateSecretCode rand ≠ ADMIN_SECRET ∧ generateSecretCode rand ≠ "" := by
  constructor
  · intro h
    have hdot : '.' ∈ (generateSecretCode rand).data := by
      rw [h]; decide
    have := generateSecretCode_mem_alphabet rand '.' hdot
    revert this; decide
  · intro h
    have := generateSecretCode_data_length rand
    rw [h] at this
    cases this

theorem c2_secret_code_format (rand : Nat → Nat) :
    (generateSecretCode rand).length = 6 ∧
    (∀ c ∈ (generateSecretCode rand).data, c ∈ codeRegexClass) := by
  exact ⟨generateSecretCode_data_length rand, generateSecretCode_mem_alphabet rand⟩

/-- C2 witness: the theorem applied to the all-zero draw sequence. -/
theorem c2_secret_code_format_witness :
    (generateSecretCode (fun _ => 0)).length = 6 ∧ 'A' ∈ codeRegexClass :=
  ⟨(c2_secret_code_format (fun _ => 0)).1,
   (c2_secret_code_format (fun _ => 0)).2 'A' (by decide)⟩

/-! ## Helper lemmas: the shapes of the upload pipeline's outcomes -/

/-- The row inserted by a successful upload. -/
def insertedRow (rand : Nat → Nat) (nowStr : String) (nowMs : Nat)
    (req : UploadReq) (s : ServerState) (f : FilePayload) : UploadRow :=
  ⟨s.nextUploadId, req.title.getD "", req.description.getD "", req.tags.getD "",
   f.filename, f.originalname, req.uploader_name.getD "", 0, 0, nowStr,
   generateSecretCode rand, computeExpiryFromSelection nowMs (req.auto_delete.getD "")⟩

theorem processUpload_noFile (rand : Nat → Nat) (nowStr : String) (nowMs : Nat)
    (req : UploadReq) (s : ServerState) (hf : req.file = none) :
    processUpload rand nowStr nowMs req s = (.noFile, s) := by
  simp [processUpload, multerStore, handleUpload, hf]

theorem processUpload_notImage (rand : Nat → Nat) (nowStr : String) (nowMs : Nat)
    (req : UploadReq) (s : ServerState) (f : FilePayload) (hf : req.file = some f)
    (hbool : (f.mimetype != "" && strStartsWith f.mimetype "image/") = false) :
    processUpload rand nowStr nowMs req s
      = (.notImage, { s with blobs := f.filename :: s.blobs }) := by
  simp [processUpload, multerStore, handleUpload, hf, hbool]

theorem processUpload_missingFields (rand : Nat → Nat) (nowStr : String) (nowMs : Nat)
    (req : UploadReq) (s : ServerState) (f : FilePayload) (hf : req.file = some f)
    (hbool : (f.mimetype != "" && strStartsWith f.mimetype "image/") = true)
    (hval : (jsTruthy req.title && jsTruthy req.uploader_name) = false) :
    processUpload rand nowStr nowMs req s
      = (.missingFields, { s with blobs := f.filename :: s.blobs }) := by
  simp [processUpload, multerStore, handleUpload, hf, hbool, hval]

theorem processUpload_success (rand : Nat → Nat) (nowStr : String) (nowMs : Nat)
    (req : UploadReq) (s : ServerState) (f : FilePayload) (hf : req.file = some f)
    (hbool : (f.mimetype != "" && strStartsWith f.mimetype "image/") = true)
    (hval : (jsTruthy req.title && jsTruthy req.uploader_name) = true) :
    processUpload rand nowStr nowMs req s
      = (.ok s.nextUploadId f.filename (generateSecretCode rand)
            (computeExpiryFromSelection nowMs (req.auto_delete.getD "")),
         { s with blobs := f.filename :: s.blobs
                  uploads := s.uploads ++ [insertedRow rand nowStr nowMs req s f]
                  nextUploadId := s.nextUploadId + 1 }) := by
  simp [processUpload, multerStore, handleUpload, hf, hbool, hval, insertedRow]

/-! ## C10 — auto_delete leniency -/

/-- C10: an `auto_delete` value other than `1d`, `1w`, `2w`, `1m` —
absent, empty, or any unrecognized spelling — produces a null expiry; the
rejection behaviour of Upload never depends on `auto_delete`; and an
otherwise-valid upload with such a value succeeds with `expires_at` null
(on the response and on the inserted row). -/
theorem c10_auto_delete_lenient (ad : Option String)
    (h : ∀ x ∈ ad, x ∉ (["1d", "1w", "2w", "1m"] : List String)) :
    (∀ nowMs : Nat, computeExpiryFromSelection nowMs (ad.getD "") = none) ∧
    (∀ (rand : Nat → Nat) (nowStr : String) (nowMs : Nat) (req : UploadReq)
        (s : ServerState) (ad2 : Option String),
      (processUpload rand nowStr nowMs { req with auto_delete := ad2 } s).1.isRejected
        = (processUpload rand nowStr nowMs req s).1.isRejected) ∧
    (∀ (rand : Nat → Nat) (nowStr : String) (nowMs : Nat) (req : UploadReq)
        (s : ServerState) (f : FilePayload),
      req.file = some f →
      (f.mimetype != "" && strStartsWith f.mimetype "image/") = true →
      (jsTruthy req.title && jsTruthy req.uploader_name) = true →
      (processUpload rand nowStr nowMs { req with auto_delete := ad } s).1
          = .ok s.nextUploadId f.filename (generateSecretCode rand) none ∧
      ∃ row ∈ (processUpload rand nowStr nowMs { req with auto_delete := ad } s).2.uploads,
        row.id = s.nextUploadId ∧ row.expires_at = none) := by
  have hne : ad.getD "" ≠ "1d" ∧ ad.getD "" ≠ "1w" ∧ ad.getD "" ≠ "2w" ∧ ad.getD "" ≠ "1m" := by
    cases ad with
    | none => exact ⟨by decide, by decide, by decide, by decide⟩
    | some x =>
      have hx := h x rfl
      simp only [Option.getD_some]
      refine ⟨?_, ?_, ?_, ?_⟩ <;> intro hEq <;> subst hEq <;> exact hx (by simp)
  have hexp : ∀ nowMs : Nat, computeExpiryFromSelection nowMs (ad.getD "") = none := by
    intro nowMs
    simp only [computeExpiryFromSelection,
      if_neg hne.1, if_neg hne.2.1, if_neg hne.2.2.1, if_neg hne.2.2.2]
  refine ⟨hexp, ?_, ?_⟩
  · intro rand nowStr nowMs req s ad2
    rcases req with ⟨file, title, description, tags, uploader_name, adx⟩
    cases file with
    | none => rfl
    | some f =>
      simp only [processUpload, multerStore, handleUpload]
      split_ifs <;> rfl
  · intro rand nowStr nowMs req s f hf hbool hval
    rw [processUpload_success rand nowStr nowMs { req with auto_delete := ad } s f hf hbool hval]
    refine ⟨by simp [hexp], ?_⟩
    refine ⟨insertedRow rand nowStr nowMs { req with auto_delete := ad } s f,
      List.mem_append_right _ (List.mem_singleton.mpr rfl), rfl, ?_⟩
    simp [insertedRow, hexp]

/-- C10 witness: the spelling `1-day` (the enumeration name, not the code
the server recognizes) yields a successful upload with a null expiry. -/
theorem c10_auto_delete_lenient_witness :
    computeExpiryFromSelection 0 "1-day" = none ∧
    (processUpload (fun _ => 0) "2024-05-12 10:00:00" 0
        ⟨some ⟨"file-1.png", "photo.png", "image/png"⟩, some "Sunset", some "", some "",
         some "Ana", some "1-day"⟩ ⟨[], [], [], 1, 1⟩).1
      = .ok 1 "file-1.png" "AAAAAA" none := by
  have h := c10_auto_delete_lenient (some "1-day") (by decide)
  refine ⟨h.1 0, ?_⟩
  have h3 := (h.2.2 (fun _ => 0) "2024-05-12 10:00:00" 0
    ⟨some ⟨"file-1.png", "photo.png", "image/png"⟩, some "Sunset", some "", some "",
     some "Ana", none⟩ ⟨[], [], [], 1, 1⟩
    ⟨"file-1.png", "photo.png", "image/png"⟩
    rfl (by decide) (by decide)).1
  exact h3

/-! ## C7 — upload validation -/

/-- C7 counterexample: a rejected upload (text/plain content type, with
valid title and uploader) still stores a blob — the multer disk-storage
middleware wrote the file before the route handler's validation ran, and
rejection does not remove it. -/
theorem c7_counterexample_blob_stored_on_reject :
    (processUpload (fun _ => 0) "2024-01-01 00:00:00" 0
        ⟨some ⟨"file-9.txt", "notes.txt", "text/plain"⟩, some "t", none, none, some "u", none⟩
        ⟨[], [], [], 1, 1⟩).1 = .notImage ∧
    (processUpload (fun _ => 0) "2024-01-01 00:00:00" 0
        ⟨some ⟨"file-9.txt", "notes.txt", "text/plain"⟩, some "t", none, none, some "u", none⟩
        ⟨[], [], [], 1, 1⟩).2.blobs = ["file-9.txt"] := by
  constructor <;> rfl

/-- C7 (amended): Upload rejects with a client error exactly when no file
payload is present, when the declared content type is not an image type,
or when title or uploader_name is missing; no Upload row is ever inserted
on a rejected request, and a request with no file payload has no side
effect at all — but when a file payload is present, the blob has already
been written by the upload middleware before validation, and a rejected
request leaves it stored. -/
theorem c7_upload_validation (rand : Nat → Nat) (nowStr : String) (nowMs : Nat)
    (req : UploadReq) (s : ServerState) :
    ((processUpload rand nowStr nowMs req s).1 = .noFile ↔ req.file = none) ∧
    (∀ f : FilePayload, req.file = some f →
      ((processUpload rand nowStr nowMs req s).1 = .notImage
        ↔ (f.mimetype != "" && strStartsWith f.mimetype "image/") = false)) ∧
    (∀ f : FilePayload, req.file = some f →
      (f.mimetype != "" && strStartsWith f.mimetype "image/") = true →
      ((processUpload rand nowStr nowMs req s).1 = .missingFields
        ↔ (jsTruthy req.title && jsTruthy req.uploader_name) = false)) ∧
    ((processUpload rand nowStr nowMs req s).1.isRejected = true →
      (processUpload rand nowStr nowMs req s).2.uploads = s.uploads) ∧
    (req.file = none → (processUpload rand nowStr nowMs req s).2 = s) ∧
    (∀ f : FilePayload, req.file = some f →
      (processUpload rand nowStr nowMs req s).2.blobs = f.filename :: s.blobs) := by
  cases hf : req.file with
  | none =>
    rw [processUpload_noFile rand nowStr nowMs req s hf]
    exact ⟨by simp, fun f hf2 => Option.noConfusion hf2,
      fun f hf2 => Option.noConfusion hf2, fun _ => rfl, fun _ => rfl,
      fun f hf2 => Option.noConfusion hf2⟩
  | some f0 =>
    cases hbool : (f0.mimetype != "" && strStartsWith f0.mimetype "image/") with
    | false =>
      rw [processUpload_notImage rand nowStr nowMs req s f0 hf hbool]
      refine ⟨by simp, ?_, ?_, fun _ => rfl, fun hn => Option.noConfusion hn, ?_⟩
      · intro f hf2
        injection hf2 with hh; subst hh
        simp [hbool]
      · intro f hf2 hb2
        injection hf2 with hh; subst hh
        rw [hbool] at hb2
        exact Bool.noConfusion hb2
      · intro f hf2
        injection hf2 with hh; subst hh
        rfl
    | true =>
      cases hval : (jsTruthy req.title && jsTruthy req.uploader_name) with
      | false =>
        rw [processUpload_missingFields rand nowStr nowMs req s f0 hf hbool hval]
        refine ⟨by simp, ?_, ?_, fun _ => rfl, fun hn => Option.noConfusion hn, ?_⟩
        · intro f hf2
          injection hf2 with hh; subst hh
          simp [hbool]
        · intro f hf2 hb2
          injection hf2 with hh; subst hh
          simp
        · intro f hf2
          injection hf2 with hh; subst hh
          rfl
      | true =>
        rw [processUpload_success rand nowStr nowMs req s f0 hf hbool hval]
        refine ⟨by simp, ?_, ?_, ?_, fun hn => Option.noConfusion hn, ?_⟩
        · intro f hf2
          injection hf2 with hh; subst hh
          simp [hbool]
        · intro f hf2 hb2
          injection hf2 with hh; subst hh
          simp
        · intro hrej
          exact absurd hrej (by simp [UploadOutcome.isRejected])
        · intro f hf2
          injection hf2 with hh; subst hh
          rfl

/-- C7 witness: a request with no file payload is rejected as `noFile`
with no side effect at all. -/
theorem c7_upload_validation_witness :
    (processUpload (fun _ => 0) "t" 0 ⟨none, some "a", none, none, some "b", none⟩
      ⟨[], [], [], 1, 1⟩).1 = .noFile ∧
    (processUpload (fun _ => 0) "t" 0 ⟨none, some "a", none, none, some "b", none⟩
      ⟨[], [], [], 1, 1⟩).2 = ⟨[], [], [], 1, 1⟩ := by
  have h := c7_upload_validation (fun _ => 0) "t" 0
    ⟨none, some "a", none, none, some "b", none⟩ ⟨[], [], [], 1, 1⟩
  exact ⟨h.1.mpr rfl, h.2.2.2.2.1 rfl⟩

/-! ## C3 — the secret code is returned once and never queryable -/

/-- Replace a row's secret code (and nothing else). -/
def scrubRow (r : UploadRow) : UploadRow := { r with secret_code := "" }

/-- Erase every stored secret code, leaving all other state intact. -/
def scrubSecrets (s : ServerState) : ServerState :=
  { s with uploads := s.uploads.map scrubRow }

theorem scrub_filter_toView (p : UploadRow → Bool) (hp : ∀ r, p (scrubRow r) = p r)
    (l : List UploadRow) :
    ((l.map scrubRow).filter p).map UploadRow.toView
      = (l.filter p).map UploadRow.toView := by
  induction l with
  | nil => rfl
  | cons r l ih =>
    simp only [List.map_cons, List.filter_cons, hp r]
    cases p r <;> simp_all [scrubRow, UploadRow.toView]

theorem scrub_find_toView (id : Nat) (l : List UploadRow) :
    ((l.map scrubRow).find? (fun r => r.id == id)).map UploadRow.toView
      = (l.find? (fun r => r.id == id)).map UploadRow.toView := by
  induction l with
  | nil => rfl
  | cons r l ih =>
    rw [List.map_cons, List.find?_cons, List.find?_cons]
    have hsc : ((scrubRow r).id == id) = (r.id == id) := rfl
    rw [hsc]
    cases h : (r.id == id) with
    | true => rfl
    | false => exact ih

/-- C3: no Query Service response depends on any stored secret code —
List, Get-by-id, Search, Leaderboard and the comment listing return
identical payloads when every secret code is erased (so none of them can
contain it) — while the Upload operation that creates a row does return
that row's stored secret code in its response. -/
theorem c3_secret_code_only_at_upload (s : ServerState) :
    listUploads (scrubSecrets s) = listUploads s ∧
    (∀ id : Nat, getUpload (scrubSecrets s) id = getUpload s id) ∧
    (∀ q tag : Option String, search (scrubSecrets s) q tag = search s q tag) ∧
    (∀ month : Option String, leaderboard (scrubSecrets s) month = leaderboard s month) ∧
    (∀ id : Nat, listComments (scrubSecrets s) id = listComments s id) ∧
    (∀ (rand : Nat → Nat) (nowStr : String) (nowMs : Nat) (req : UploadReq)
        (i : Nat) (fn code : String) (exp : Option Nat) (s2 : ServerState),
      processUpload rand nowStr nowMs req s = (.ok i fn code exp, s2) →
      code = generateSecretCode rand ∧
        ∃ row ∈ s2.uploads, row.id = i ∧ row.secret_code = code) := by
  refine ⟨?_, ?_, ?_, ?_, fun _ => rfl, ?_⟩
  · show List.insertionSort dateOrder ((s.uploads.map scrubRow).map UploadRow.toView)
      = List.insertionSort dateOrder (s.uploads.map UploadRow.toView)
    rw [List.map_map]
    rfl
  · intro id
    show ((s.uploads.map scrubRow).find? (fun r => r.id == id)).map UploadRow.toView
      = (s.uploads.find? (fun r => r.id == id)).map UploadRow.toView
    exact scrub_find_toView id s.uploads
  · intro q tag
    show List.insertionSort dateOrder
        (((s.uploads.map scrubRow).filter (searchMatches q tag)).map UploadRow.toView)
      = List.insertionSort dateOrder
        ((s.uploads.filter (searchMatches q tag)).map UploadRow.toView)
    rw [scrub_filter_toView (searchMatches q tag) (fun r => rfl) s.uploads]
  · intro month
    show List.insertionSort lbOrder
        (((s.uploads.map scrubRow).filter (monthMatches month)).map UploadRow.toView)
      = List.insertionSort lbOrder
        ((s.uploads.filter (monthMatches month)).map UploadRow.toView)
    rw [scrub_filter_toView (monthMatches month) (fun r => rfl) s.uploads]
  · intro rand nowStr nowMs req i fn code exp s2 h
    cases hf : req.file with
    | none =>
      rw [processUpload_noFile rand nowStr nowMs req s hf] at h
      exact absurd (congrArg Prod.fst h) (by simp)
    | some f0 =>
      cases hbool : (f0.mimetype != "" && strStartsWith f0.mimetype "image/") with
      | false =>
        rw [processUpload_notImage rand nowStr nowMs req s f0 hf hbool] at h
        exact absurd (congrArg Prod.fst h) (by simp)
      | true =>
        cases hval : (jsTruthy req.title && jsTruthy req.uploader_name) with
        | false =>
          rw [processUpload_missingFields rand nowStr nowMs req s f0 hf hbool hval] at h
          exact absurd (congrArg Prod.fst h) (by simp)
        | true =>
          rw [processUpload_success rand nowStr nowMs req s f0 hf hbool hval] at h
          have hout := congrArg Prod.fst h
          have hst := congrArg Prod.snd h
          simp only at hout hst
          injection hout with h1 h2 h3 h4
          subst h1; subst h3
          refine ⟨rfl, insertedRow rand nowStr nowMs req s f0, ?_, rfl, rfl⟩
          rw [← hst]
          exact List.mem_append_right _ (List.mem_singleton.mpr rfl)

/-- C3 witness: a concrete state where the scrubbed and original
leaderboards coincide, and a concrete upload whose response code is the
stored one. -/
theorem c3_secret_code_only_at_upload_witness :
    leaderboard (scrubSecrets ⟨[⟨1, "t", "", "", "f.png", "o.png", "u", 0, 0,
        "2024-01-01 00:00:00", "QQQQQQ", none⟩], [], ["f.png"], 2, 1⟩) none
      = leaderboard ⟨[⟨1, "t", "", "", "f.png", "o.png", "u", 0, 0,
        "2024-01-01 00:00:00", "QQQQQQ", none⟩], [], ["f.png"], 2, 1⟩ none ∧
    ∃ row ∈ (processUpload (fun _ => 0) "2024-01-02 00:00:00" 0
        ⟨some ⟨"file-1.png", "photo.png", "image/png"⟩, some "Sunset", some "", some "",
         some "Ana", none⟩
        ⟨[⟨1, "t", "", "", "f.png", "o.png", "u", 0, 0,
          "2024-01-01 00:00:00", "QQQQQQ", none⟩], [], ["f.png"], 2, 1⟩).2.uploads,
      row.id = 2 ∧ row.secret_code = "AAAAAA" := by
  have h := c3_secret_code_only_at_upload
    ⟨[⟨1, "t", "", "", "f.png", "o.png", "u", 0, 0,
      "2024-01-01 00:00:00", "QQQQQQ", none⟩], [], ["f.png"], 2, 1⟩
  refine ⟨h.2.2.2.1 none, ?_⟩
  have h6 := h.2.2.2.2.2 (fun _ => 0) "2024-01-02 00:00:00" 0
    ⟨some ⟨"file-1.png", "photo.png", "image/png"⟩, some "Sunset", some "", some "",
     some "Ana", none⟩ 2 "file-1.png" "AAAAAA" none _ rfl
  exact h6.2

/-! ## C6 — update modifies only the supplied fields -/

/-- The row an authorized Update produces, stated declaratively: only
`title` (and only when non-blank after trimming), `description` and
`tags` are replaced; the record-update syntax leaves every other field of
`r` untouched. -/
def appliedUpdate (t d g : Option String) (r : UploadRow) : UploadRow :=
  { r with
    title := match t with
      | some x => if jsTrim x != "" then jsTrim x else r.title
      | none => r.title
    description := d.getD r.description
    tags := g.getD r.tags }

/-- Applying the collected field setters equals the single declarative
record update. -/
theorem collectUpdateFields_apply (t d g : Option String) (r : UploadRow) :
    (collectUpdateFields t d g).foldl (fun r f => f r) r = appliedUpdate t d g r := by
  rcases t with _ | x <;> rcases d with _ | y <;> rcases g with _ | z <;>
    simp only [collectUpdateFields, appliedUpdate, List.nil_append, List.append_nil,
      Option.getD_some, Option.getD_none] <;>
    first
      | rfl
      | (by_cases hx : jsTrim x != "" <;> simp only [hx, if_true, if_false,
          Bool.false_eq_true, List.nil_append, List.append_nil] <;> rfl)

/-- The collected field list is empty exactly when no updatable field was
supplied: no non-blank title, no description, no tags. -/
theorem collectUpdateFields_empty_iff (t d g : Option String) :
    collectUpdateFields t d g = [] ↔
      ((∀ x ∈ t, jsTrim x = "") ∧ d = none ∧ g = none) := by
  rcases t with _ | x
  · rcases d with _ | y <;> rcases g with _ | z <;> simp [collectUpdateFields]
  · rcases d with _ | y <;> rcases g with _ | z <;>
      by_cases hx : jsTrim x = "" <;> simp [collectUpdateFields, hx]

/-- C6: for an authorized Update on an existing row, when no updatable
field is supplied (title absent or blank after trimming, description and
tags absent) the request is rejected as a client error with the state
unchanged; otherwise the update succeeds and the new table equals the old
one with only the target row's `title` (only if non-blank after
trimming), `description` and `tags` replaced — every other field of that
row (blob reference, original_name, uploader_name, counters, upload_date,
secret_code, expires_at) and every other row left unchanged. -/
theorem c6_update_frame (s : ServerState) (id : Nat) (code : String)
    (t d g : Option String) (row : UploadRow)
    (hcode : code ≠ "")
    (hfind : s.uploads.find? (fun r => r.id == id) = some row)
    (hauth : code = ADMIN_SECRET ∨ row.secret_code = code) :
    (((∀ x ∈ t, jsTrim x = "") ∧ d = none ∧ g = none) →
      updateUpload s id ⟨some code, t, d, g⟩ = (.noFields, s)) ∧
    (¬ ((∀ x ∈ t, jsTrim x = "") ∧ d = none ∧ g = none) →
      updateUpload s id ⟨some code, t, d, g⟩ =
        (.updated,
         { s with uploads := s.uploads.map fun r =>
             if r.id == id then appliedUpdate t d g r else r })) := by
  have hjst : jsTruthy (some code) = true := by
    simp [jsTruthy, hcode]
  have hauthB : (code != ADMIN_SECRET && row.secret_code != code) = false := by
    rcases hauth with h | h <;> simp [h]
  have hred : updateUpload s id ⟨some code, t, d, g⟩ =
      (if (collectUpdateFields t d g).isEmpty then (.noFields, s)
       else (.updated,
         { s with uploads := s.uploads.map fun r =>
             if r.id == id then (collectUpdateFields t d g).foldl (fun r f => f r) r
             else r })) := by
    simp only [updateUpload, hjst, Bool.not_true, Bool.false_eq_true, if_false,
      Option.getD_some, hfind, hauthB]
  constructor
  · intro hempty
    rw [hred, if_pos]
    rw [List.isEmpty_iff, collectUpdateFields_empty_iff]
    exact hempty
  · intro hnonempty
    have hne : (collectUpdateFields t d g).isEmpty = false := by
      rw [← Bool.not_eq_true, List.isEmpty_iff, collectUpdateFields_empty_iff]
      exact hnonempty
    rw [hred, if_neg (by simp [hne])]
    have hfun : (fun r : UploadRow =>
        if r.id == id then (collectUpdateFields t d g).foldl (fun r f => f r) r else r)
        = (fun r : UploadRow => if r.id == id then appliedUpdate t d g r else r) := by
      funext r
      by_cases hid : (r.id == id) = true
      · rw [if_pos hid, if_pos hid, collectUpdateFields_apply]
      · rw [if_neg hid, if_neg hid]
    rw [hfun]

/-- C6 witness: updating only the description of a one-row store changes
that description and nothing else; supplying only a blank title is
rejected with no change. -/
theorem c6_update_frame_witness :
    updateUpload ⟨[⟨1, "t", "old", "a,b", "f.png", "o.png", "u", 3, 4,
        "2024-01-01 00:00:00", "ABCDEF", some 5⟩], [], ["f.png"], 2, 1⟩ 1
        ⟨some "ABCDEF", none, some "new", none⟩ =
      (.updated, ⟨[⟨1, "t", "new", "a,b", "f.png", "o.png", "u", 3, 4,
        "2024-01-01 00:00:00", "ABCDEF", some 5⟩], [], ["f.png"], 2, 1⟩) ∧
    updateUpload ⟨[⟨1, "t", "old", "a,b", "f.png", "o.png", "u", 3, 4,
        "2024-01-01 00:00:00", "ABCDEF", some 5⟩], [], ["f.png"], 2, 1⟩ 1
        ⟨some "ABCDEF", some "   ", none, none⟩ =
      (.noFields, ⟨[⟨1, "t", "old", "a,b", "f.png", "o.png", "u", 3, 4,
        "2024-01-01 00:00:00", "ABCDEF", some 5⟩], [], ["f.png"], 2, 1⟩) := by
  constructor
  · have h := (c6_update_frame ⟨[⟨1, "t", "old", "a,b", "f.png", "o.png", "u", 3, 4,
      "2024-01-01 00:00:00", "ABCDEF", some 5⟩], [], ["f.png"], 2, 1⟩ 1 "ABCDEF"
      none (some "new") none _ (by decide) rfl (Or.inr rfl)).2 (by simp)
    rw [h]; rfl
  · have h := (c6_update_frame ⟨[⟨1, "t", "old", "a,b", "f.png", "o.png", "u", 3, 4,
      "2024-01-01 00:00:00", "ABCDEF", some 5⟩], [], ["f.png"], 2, 1⟩ 1 "ABCDEF"
      (some "   ") none none _ (by decide) rfl (Or.inr rfl)).1
      ⟨by intro x hx; cases hx; rfl, rfl, rfl⟩
    exact h

/-! ## C1 — secret-code authorization for Update and Delete -/

/-- C1 counterexample: secret codes are random with no uniqueness check,
so two uploads can be issued the identical code. Here both uploads draw
the all-zero random sequence and receive code `AAAAAA`; the code returned
by the second upload (id 2) then authorizes deleting the first upload
(id 1), refuting that a returned code authorizes no other upload. -/
theorem c1_counterexample_code_collision :
    (processUpload (fun _ => 0) "2024-01-01 00:01:00" 0
        ⟨some ⟨"file-2.png", "b.png", "image/png"⟩, some "B", some "", some "", some "Bob", none⟩
        (processUpload (fun _ => 0) "2024-01-01 00:00:00" 0
          ⟨some ⟨"file-1.png", "a.png", "image/png"⟩, some "A", some "", some "", some "Ann", none⟩
          ⟨[], [], [], 1, 1⟩).2).1
      = .ok 2 "file-2.png" "AAAAAA" none ∧
    (deleteUpload
        (processUpload (fun _ => 0) "2024-01-01 00:01:00" 0
          ⟨some ⟨"file-2.png", "b.png", "image/png"⟩, some "B", some "", some "", some "Bob", none⟩
          (processUpload (fun _ => 0) "2024-01-01 00:00:00" 0
            ⟨some ⟨"file-1.png", "a.png", "image/png"⟩, some "A", some "", some "", some "Ann", none⟩
            ⟨[], [], [], 1, 1⟩).2).2
        1 (some "AAAAAA")).1 = .deleted ∧
    (1 : Nat) ≠ 2 := by
  refine ⟨rfl, rfl, by decide⟩

/-- C1 (amended): a request with no (or empty) secret_code is rejected as
a validation error before any lookup; with a secret_code supplied, a
missing row signals not-found; on an existing row the request is
forbidden exactly when the code matches neither the row's stored code nor
the operator override, and an authorized Delete succeeds. Since a
generated code is never the override and never empty, the code returned
at upload time authorizes exactly the uploads that store that same code —
its own upload, and no other unless another upload happens to store an
identical (randomly colliding) code. -/
theorem c1_secret_code_authorization (s : ServerState) (id : Nat) (code : String)
    (t d g : Option String) (hc : code ≠ "") :
    (updateUpload s id ⟨none, t, d, g⟩ = (.missingSecret, s) ∧
     deleteUpload s id none = (.missingSecret, s) ∧
     updateUpload s id ⟨some "", t, d, g⟩ = (.missingSecret, s) ∧
     deleteUpload s id (some "") = (.missingSecret, s)) ∧
    (s.uploads.find? (fun r => r.id == id) = none →
      updateUpload s id ⟨some code, t, d, g⟩ = (.notFound, s) ∧
      deleteUpload s id (some code) = (.notFound, s)) ∧
    (∀ row : UploadRow, s.uploads.find? (fun r => r.id == id) = some row →
      (((updateUpload s id ⟨some code, t, d, g⟩).1 = .forbidden
          ↔ ¬(code = ADMIN_SECRET ∨ row.secret_code = code)) ∧
       ((deleteUpload s id (some code)).1 = .forbidden
          ↔ ¬(code = ADMIN_SECRET ∨ row.secret_code = code)) ∧
       ((code = ADMIN_SECRET ∨ row.secret_code = code) →
          (deleteUpload s id (some code)).1 = .deleted))) ∧
    (∀ rand : Nat → Nat,
      generateSecretCode rand ≠ ADMIN_SECRET ∧ generateSecretCode rand ≠ "") := by
  have hjst : jsTruthy (some code) = true := by simp [jsTruthy, hc]
  refine ⟨?_, ?_, ?_, generateSecretCode_ne_admin⟩
  · refine ⟨?_, ?_, ?_, ?_⟩ <;> simp [updateUpload, deleteUpload, jsTruthy]
  · intro hfind
    constructor <;> simp [updateUpload, deleteUpload, hjst, hfind]
  · intro row hfind
    have hiff : ∀ b : Bool, (code != ADMIN_SECRET && row.secret_code != code) = b →
        (b = true ↔ ¬(code = ADMIN_SECRET ∨ row.secret_code = code)) := by
      intro b hb
      subst hb
      simp [not_or]
    refine ⟨?_, ?_, ?_⟩
    · cases hab : (code != ADMIN_SECRET && row.secret_code != code) with
      | true =>
        rw [← hiff _ hab]
        simp [updateUpload, hjst, hfind, hab]
      | false =>
        rw [iff_iff_implies_and_implies]
        constructor
        · intro hforb
          exfalso
          revert hforb
          simp only [updateUpload, hjst, Bool.not_true, Bool.false_eq_true, if_false,
            Option.getD_some, hfind, hab]
          cases hemp : (collectUpdateFields t d g).isEmpty <;> simp [hemp]
        · intro hcontra
          exact absurd ((hiff _ hab).mpr hcontra) (by simp)
    · cases hab : (code != ADMIN_SECRET && row.secret_code != code) with
      | true =>
        rw [← hiff _ hab]
        simp [deleteUpload, hjst, hfind, hab]
      | false =>
        rw [iff_iff_implies_and_implies]
        constructor
        · intro hforb
          exfalso
          revert hforb
          simp [deleteUpload, hjst, hfind, hab]
        · intro hcontra
          exact absurd ((hiff _ hab).mpr hcontra) (by simp)
    · intro hok
      have hab : (code != ADMIN_SECRET && row.secret_code != code) = false := by
        rcases hok with h | h <;> simp [h]
      simp [deleteUpload, hjst, hfind, hab]

/-- C1 witness: on a one-row store, a wrong code is forbidden, the stored
code deletes, and a missing code is a validation error. -/
theorem c1_secret_code_authorization_witness :
    (updateUpload ⟨[⟨1, "t", "", "", "f.png", "o.png", "u", 0, 0,
        "2024-01-01 00:00:00", "ABCDEF", none⟩], [], ["f.png"], 2, 1⟩ 1
        ⟨some "WRONG1", some "x", none, none⟩).1 = .forbidden ∧
    (deleteUpload ⟨[⟨1, "t", "", "", "f.png", "o.png", "u", 0, 0,
        "2024-01-01 00:00:00", "ABCDEF", none⟩], [], ["f.png"], 2, 1⟩ 1
        (some "ABCDEF")).1 = .deleted ∧
    deleteUpload ⟨[⟨1, "t", "", "", "f.png", "o.png", "u", 0, 0,
        "2024-01-01 00:00:00", "ABCDEF", none⟩], [], ["f.png"], 2, 1⟩ 1 none
      = (.missingSecret, ⟨[⟨1, "t", "", "", "f.png", "o.png", "u", 0, 0,
        "2024-01-01 00:00:00", "ABCDEF", none⟩], [], ["f.png"], 2, 1⟩) := by
  have hwrong := c1_secret_code_authorization
    ⟨[⟨1, "t", "", "", "f.png", "o.png", "u", 0, 0,
      "2024-01-01 00:00:00", "ABCDEF", none⟩], [], ["f.png"], 2, 1⟩ 1 "WRONG1"
    (some "x") none none (by decide)
  have hright := c1_secret_code_authorization
    ⟨[⟨1, "t", "", "", "f.png", "o.png", "u", 0, 0,
      "2024-01-01 00:00:00", "ABCDEF", none⟩], [], ["f.png"], 2, 1⟩ 1 "ABCDEF"
    none none none (by decide)
  refine ⟨((hwrong.2.2.1 _ rfl).1).mpr (by decide), (hright.2.2.1 _ rfl).2.2 (by decide), ?_⟩
  exact hright.1.2.1

/-! ## C4 — cascade deletion of comments, referential integrity -/

/-- State reached by folding the sweeper's per-row step over a selection:
each table is the original filtered by "no processed row removed me". -/
theorem sweepFold_state (uf : String → Bool) (df : Nat → Bool) :
    ∀ (l : List UploadRow) (st : ServerState),
    (l.foldl (sweepStep uf df) st).uploads
      = st.uploads.filter (fun u => !(l.any fun e => !df e.id && u.id == e.id)) ∧
    (l.foldl (sweepStep uf df) st).comments
      = st.comments.filter (fun c => !(l.any fun e => !df e.id && c.upload_id == e.id)) ∧
    (l.foldl (sweepStep uf df) st).blobs
      = st.blobs.filter (fun b => !(l.any fun e => !uf e.filename && b == e.filename))
  | [], st => by simp
  | e :: l, st => by
    have ih := sweepFold_state uf df l (sweepStep uf df st e)
    have hu : (sweepStep uf df st e).uploads
        = st.uploads.filter (fun u => !(!df e.id && u.id == e.id)) := by
      simp only [sweepStep]
      cases hdf : df e.id <;> cases huf : uf e.filename <;> simp [bne]
    have hcm : (sweepStep uf df st e).comments
        = st.comments.filter (fun c => !(!df e.id && c.upload_id == e.id)) := by
      simp only [sweepStep]
      cases hdf : df e.id <;> cases huf : uf e.filename <;> simp [bne]
    have hb : (sweepStep uf df st e).blobs
        = st.blobs.filter (fun b => !(!uf e.filename && b == e.filename)) := by
      simp only [sweepStep]
      cases hdf : df e.id <;> cases huf : uf e.filename <;> simp [bne]
    rw [List.foldl_cons]
    refine ⟨?_, ?_, ?_⟩
    · rw [ih.1, hu, List.filter_filter]
      apply List.filter_congr
      intro u _
      simp only [List.any_cons, Bool.not_or, Bool.and_comm]
    · rw [ih.2.1, hcm, List.filter_filter]
      apply List.filter_congr
      intro c _
      simp only [List.any_cons, Bool.not_or, Bool.and_comm]
    · rw [ih.2.2, hb, List.filter_filter]
      apply List.filter_congr
      intro b _
      simp only [List.any_cons, Bool.not_or, Bool.and_comm]

/-- An authorized delete produces exactly the cascaded state. -/
theorem deleteUpload_deleted (s : ServerState) (id : Nat) (code : String)
    (row : UploadRow) (hc : code ≠ "")
    (hfind : s.uploads.find? (fun r => r.id == id) = some row)
    (hauth : code = ADMIN_SECRET ∨ row.secret_code = code) :
    deleteUpload s id (some code) =
      (.deleted,
       { s with blobs := s.blobs.filter (fun b => b != row.filename)
                uploads := s.uploads.filter (fun r => !(r.id == id))
                comments := s.comments.filter (fun c => !(c.upload_id == id)) }) := by
  have hjst : jsTruthy (some code) = true := by simp [jsTruthy, hc]
  have hab : (code != ADMIN_SECRET && row.secret_code != code) = false := by
    rcases hauth with h | h <;> simp [h]
  simp [deleteUpload, hjst, hfind, hab]

/-- The update handler either leaves the state alone or rewrites rows
in place (ids preserved); comments are never touched. -/
theorem updateUpload_state (s : ServerState) (id : Nat) (req : UpdateReq) :
    (updateUpload s id req).2 = s ∨
    (updateUpload s id req).2 =
      { s with uploads := s.uploads.map fun r =>
          if r.id == id then appliedUpdate req.title req.description req.tags r else r } := by
  rcases req with ⟨sc, t, d, g⟩
  simp only [updateUpload]
  split
  · exact Or.inl rfl
  · split
    · exact Or.inl rfl
    · split
      · exact Or.inl rfl
      · split
        · exact Or.inl rfl
        · refine Or.inr ?_
          have hfun : (fun r : UploadRow =>
              if r.id == id then (collectUpdateFields t d g).foldl (fun r f => f r) r else r)
              = (fun r : UploadRow => if r.id == id then appliedUpdate t d g r else r) := by
            funext r
            by_cases hid : (r.id == id) = true
            · rw [if_pos hid, if_pos hid, collectUpdateFields_apply]
            · rw [if_neg hid, if_neg hid]
          rw [hfun]

/-- C4: destroying an upload destroys its comments with it. An
authorized Delete removes the row and exactly the comments referencing
it (so none survive), and the id afterwards resolves to NotFound; a
sweeper run removes, together with each expired row it deletes, every
comment referencing that row; and every operation of the server
preserves the invariant that each comment references an existing upload. -/
theorem c4_comment_cascade :
    (∀ (s : ServerState) (id : Nat) (code : String) (row : UploadRow),
      code ≠ "" →
      s.uploads.find? (fun r => r.id == id) = some row →
      (code = ADMIN_SECRET ∨ row.secret_code = code) →
      (deleteUpload s id (some code)).1 = .deleted ∧
      (deleteUpload s id (some code)).2.comments
        = s.comments.filter (fun c => !(c.upload_id == id)) ∧
      (∀ c ∈ (deleteUpload s id (some code)).2.comments, c.upload_id ≠ id) ∧
      getUpload (deleteUpload s id (some code)).2 id = none) ∧
    (∀ (uf : String → Bool) (df : Nat → Bool) (now : Nat) (s : ServerState)
        (r : UploadRow), r ∈ s.uploads → expiredB now r = true → df r.id = false →
      (∀ u ∈ (sweepOnce uf df now s).uploads, u.id ≠ r.id) ∧
      (∀ c ∈ (sweepOnce uf df now s).comments, c.upload_id ≠ r.id)) ∧
    (∀ (o : Op) (s : ServerState), commentsConsistent s → commentsConsistent (applyOp o s)) := by
  refine ⟨?_, ?_, ?_⟩
  · intro s id code row hc hfind hauth
    rw [deleteUpload_deleted s id code row hc hfind hauth]
    refine ⟨rfl, rfl, ?_, ?_⟩
    · intro c hcmem
      have := (List.mem_filter.mp hcmem).2
      simpa using this
    · show ((s.uploads.filter (fun r => !(r.id == id))).find?
        (fun r => r.id == id)).map UploadRow.toView = none
      rw [List.find?_eq_none.mpr]
      · rfl
      · intro x hx
        have := (List.mem_filter.mp hx).2
        simpa using this
  · intro uf df now s r hr hexp hdf
    have hsel : r ∈ s.uploads.filter (expiredB now) :=
      List.mem_filter.mpr ⟨hr, hexp⟩
    have hst := sweepFold_state uf df (s.uploads.filter (expiredB now)) s
    constructor
    · intro u hu hid
      rw [show sweepOnce uf df now s
          = (s.uploads.filter (expiredB now)).foldl (sweepStep uf df) s from rfl] at hu
      rw [hst.1] at hu
      have hpred := (List.mem_filter.mp hu).2
      have : (s.uploads.filter (expiredB now)).any (fun e => !df e.id && u.id == e.id) = true :=
        List.any_eq_true.mpr ⟨r, hsel, by simp [hdf, hid]⟩
      rw [this] at hpred
      cases hpred
    · intro c hc hid
      rw [show sweepOnce uf df now s
          = (s.uploads.filter (expiredB now)).foldl (sweepStep uf df) s from rfl] at hc
      rw [hst.2.1] at hc
      have hpred := (List.mem_filter.mp hc).2
      have : (s.uploads.filter (expiredB now)).any
          (fun e => !df e.id && c.upload_id == e.id) = true :=
        List.any_eq_true.mpr ⟨r, hsel, by simp [hdf, hid]⟩
      rw [this] at hpred
      cases hpred
  · intro o s hs
    cases o with
    | upload rand nowStr nowMs req =>
      show commentsConsistent (processUpload rand nowStr nowMs req s).2
      cases hf : req.file with
      | none =>
        rw [processUpload_noFile rand nowStr nowMs req s hf]
        exact hs
      | some f =>
        cases hbool : (f.mimetype != "" && strStartsWith f.mimetype "image/") with
        | false =>
          rw [processUpload_notImage rand nowStr nowMs req s f hf hbool]
          exact hs
        | true =>
          cases hval : (jsTruthy req.title && jsTruthy req.uploader_name) with
          | false =>
            rw [processUpload_missingFields rand nowStr nowMs req s f hf hbool hval]
            exact hs
          | true =>
            rw [processUpload_success rand nowStr nowMs req s f hf hbool hval]
            intro c hcmem
            obtain ⟨u, hu, hid⟩ := hs c hcmem
            exact ⟨u, List.mem_append_left _ hu, hid⟩
    | like id =>
      show commentsConsistent (likeUpload s id).2
      by_cases hany : (s.uploads.any fun r => r.id == id) = true
      · rw [show (likeUpload s id).2 = { s with uploads := s.uploads.map fun r =>
            if r.id == id then { r with like_count := r.like_count + 1 } else r } by
          simp [likeUpload, hany]]
        intro c hcmem
        obtain ⟨u, hu, hid⟩ := hs c hcmem
        refine ⟨_, List.mem_map_of_mem _ hu, ?_⟩
        by_cases h : (u.id == id) = true
        · rw [if_pos h]; exact hid
        · rw [if_neg h]; exact hid
      · rw [show (likeUpload s id).2 = s by simp [likeUpload, hany]]
        exact hs
    | download id =>
      show commentsConsistent (downloadUpload s id).2
      cases hfind : s.uploads.find? (fun r => r.id == id) with
      | none =>
        rw [show (downloadUpload s id).2 = s by simp [downloadUpload, hfind]]
        exact hs
      | some row =>
        rw [show (downloadUpload s id).2 = { s with uploads := s.uploads.map fun r =>
            if r.id == id then { r with download_count := r.download_count + 1 } else r } by
          simp [downloadUpload, hfind]]
        intro c hcmem
        obtain ⟨u, hu, hid⟩ := hs c hcmem
        refine ⟨_, List.mem_map_of_mem _ hu, ?_⟩
        by_cases h : (u.id == id) = true
        · rw [if_pos h]; exact hid
        · rw [if_neg h]; exact hid
    | update id req =>
      show commentsConsistent (updateUpload s id req).2
      rcases updateUpload_state s id req with h | h
      · rw [h]; exact hs
      · rw [h]
        intro c hcmem
        obtain ⟨u, hu, hid⟩ := hs c hcmem
        refine ⟨_, List.mem_map_of_mem _ hu, ?_⟩
        by_cases h2 : (u.id == id) = true
        · rw [if_pos h2]; exact hid
        · rw [if_neg h2]; exact hid
    | delete id code =>
      show commentsConsistent (deleteUpload s id code).2
      by_cases hjst : jsTruthy code = true
      · cases hfind : s.uploads.find? (fun r => r.id == id) with
        | none =>
          rw [show (deleteUpload s id code).2 = s by simp [deleteUpload, hjst, hfind]]
          exact hs
        | some row =>
          cases hab : ((code.getD "") != ADMIN_SECRET && row.secret_code != (code.getD "")) with
          | true =>
            rw [show (deleteUpload s id code).2 = s by simp [deleteUpload, hjst, hfind, hab]]
            exact hs
          | false =>
            rw [show (deleteUpload s id code).2 =
                { s with blobs := s.blobs.filter (fun b => b != row.filename)
                         uploads := s.uploads.filter (fun r => !(r.id == id))
                         comments := s.comments.filter (fun c => !(c.upload_id == id)) } by
              simp [deleteUpload, hjst, hfind, hab]]
            intro c hcmem
            obtain ⟨hcs, hcid⟩ := List.mem_filter.mp hcmem
            obtain ⟨u, hu, hid⟩ := hs c hcs
            refine ⟨u, List.mem_filter.mpr ⟨hu, ?_⟩, hid⟩
            rw [show (u.id == id) = (c.upload_id == id) by rw [hid]]
            exact hcid
      · have hf : jsTruthy code = false := by
          revert hjst; cases jsTruthy code <;> simp
        rw [show (deleteUpload s id code).2 = s by simp [deleteUpload, hf]]
        exact hs
    | comment id name text now =>
      show commentsConsistent (addComment s id name text now).2
      cases text with
      | none => exact hs
      | some ctext =>
        by_cases htrim : (jsTrim ctext == "") = true
        · rw [show (addComment s id name (some ctext) now).2 = s by
            simp [addComment, htrim]]
          exact hs
        · by_cases hany : (s.uploads.any fun r => r.id == id) = true
          · rw [show (addComment s id name (some ctext) now).2 =
                { s with comments := s.comments ++
                    [⟨s.nextCommentId, id, jsSlice (name.getD "") 120, jsSlice ctext 4000, now⟩]
                         nextCommentId := s.nextCommentId + 1 } by
              simp [addComment, htrim, hany]]
            intro c hcmem
            rcases List.mem_append.mp hcmem with hcs | hnew
            · obtain ⟨u, hu, hid⟩ := hs c hcs
              exact ⟨u, hu, hid⟩
            · obtain ⟨u, hu, hid⟩ := List.any_eq_true.mp hany
              have hceq : c = ⟨s.nextCommentId, id, jsSlice (name.getD "") 120,
                  jsSlice ctext 4000, now⟩ := List.mem_singleton.mp hnew
              refine ⟨u, hu, ?_⟩
              rw [hceq]
              show u.id = id
              exact beq_iff_eq.mp hid
          · rw [show (addComment s id name (some ctext) now).2 = s by
              simp [addComment, htrim, hany]]
            exact hs
    | sweep uf df now =>
      show commentsConsistent (sweepOnce uf df now s)
      have hst := sweepFold_state uf df (s.uploads.filter (expiredB now)) s
      intro c hcmem
      rw [show sweepOnce uf df now s
          = (s.uploads.filter (expiredB now)).foldl (sweepStep uf df) s from rfl] at hcmem ⊢
      rw [hst.2.1] at hcmem
      obtain ⟨hcs, hcpred⟩ := List.mem_filter.mp hcmem
      obtain ⟨u, hu, hid⟩ := hs c hcs
      refine ⟨u, ?_, hid⟩
      rw [hst.1]
      refine List.mem_filter.mpr ⟨hu, ?_⟩
      rw [show (fun e : UploadRow => !df e.id && u.id == e.id)
          = (fun e : UploadRow => !df e.id && c.upload_id == e.id) by
        funext e; rw [hid]]
      exact hcpred

/-- C4 witness: deleting upload 1 (which has one comment) with its code
removes the row and the comment, and Get-by-id then returns NotFound. -/
theorem c4_comment_cascade_witness :
    (deleteUpload ⟨[⟨1, "t", "", "", "f.png", "o.png", "u", 0, 0,
        "2024-01-01 00:00:00", "ABCDEF", none⟩],
        [⟨1, 1, "bob", "hi", "2024-01-02 00:00:00"⟩], ["f.png"], 2, 2⟩ 1
        (some "ABCDEF")).2.comments = [] ∧
    getUpload (deleteUpload ⟨[⟨1, "t", "", "", "f.png", "o.png", "u", 0, 0,
        "2024-01-01 00:00:00", "ABCDEF", none⟩],
        [⟨1, 1, "bob", "hi", "2024-01-02 00:00:00"⟩], ["f.png"], 2, 2⟩ 1
        (some "ABCDEF")).2 1 = none := by
  have h := (c4_comment_cascade.1 ⟨[⟨1, "t", "", "", "f.png", "o.png", "u", 0, 0,
    "2024-01-01 00:00:00", "ABCDEF", none⟩],
    [⟨1, 1, "bob", "hi", "2024-01-02 00:00:00"⟩], ["f.png"], 2, 2⟩ 1 "ABCDEF"
    ⟨1, "t", "", "", "f.png", "o.png", "u", 0, 0, "2024-01-01 00:00:00", "ABCDEF", none⟩
    (by decide) rfl (Or.inr rfl))
  refine ⟨?_, h.2.2.2⟩
  rw [h.2.1]
  rfl

/-! ## C5 — the expiry sweep -/

/-- Any expired row whose SQL delete does not fail is gone after the
sweep — no matter whether its own unlink failed, and no matter what
happened to any other row. -/
theorem sweepOnce_id_removed (uf : String → Bool) (df : Nat → Bool) (now : Nat)
    (s : ServerState) (r : UploadRow) (hr : r ∈ s.uploads)
    (hexp : expiredB now r = true) (hdf : df r.id = false) :
    ∀ u ∈ (sweepOnce uf df now s).uploads, u.id ≠ r.id := by
  intro u hu hid
  have hsel : r ∈ s.uploads.filter (expiredB now) := List.mem_filter.mpr ⟨hr, hexp⟩
  rw [show sweepOnce uf df now s
      = (s.uploads.filter (expiredB now)).foldl (sweepStep uf df) s from rfl,
    (sweepFold_state uf df _ s).1] at hu
  have hpred := (List.mem_filter.mp hu).2
  have : (s.uploads.filter (expiredB now)).any (fun e => !df e.id && u.id == e.id) = true :=
    List.any_eq_true.mpr ⟨r, hsel, by simp [hdf, hid]⟩
  rw [this] at hpred
  cases hpred

/-- The blob of an expired row whose unlink does not fail is gone. -/
theorem sweepOnce_blob_removed (uf : String → Bool) (df : Nat → Bool) (now : Nat)
    (s : ServerState) (r : UploadRow) (hr : r ∈ s.uploads)
    (hexp : expiredB now r = true) (huf : uf r.filename = false) :
    r.filename ∉ (sweepOnce uf df now s).blobs := by
  intro hb
  have hsel : r ∈ s.uploads.filter (expiredB now) := List.mem_filter.mpr ⟨hr, hexp⟩
  rw [show sweepOnce uf df now s
      = (s.uploads.filter (expiredB now)).foldl (sweepStep uf df) s from rfl,
    (sweepFold_state uf df _ s).2.2] at hb
  have hpred := (List.mem_filter.mp hb).2
  have : (s.uploads.filter (expiredB now)).any
      (fun e => !uf e.filename && r.filename == e.filename) = true :=
    List.any_eq_true.mpr ⟨r, hsel, by simp [huf]⟩
  rw [this] at hpred
  cases hpred

/-- C5: a sweeper run removes exactly the rows whose `expires_at` is set
and ≤ now (rows with null or future expiry survive untouched); a failure
on one eligible row does not stop the removal of any other eligible row,
and even a blob-unlink failure does not stop that row's removal; after a
failure-free run an expired upload's id is absent from Get-by-id, List,
Search and Leaderboard, and its blob no longer exists. -/
theorem c5_expiry_sweep (now : Nat) (s : ServerState)
    (hids : (s.uploads.map fun r => r.id).Nodup) :
    ((sweepOnce (fun _ => false) (fun _ => false) now s).uploads
      = s.uploads.filter fun r => !(expiredB now r)) ∧
    (∀ r ∈ s.uploads, expiredB now r = false →
      r ∈ (sweepOnce (fun _ => false) (fun _ => false) now s).uploads) ∧
    (∀ (uf : String → Bool) (df : Nat → Bool) (r : UploadRow),
      r ∈ s.uploads → expiredB now r = true → df r.id = false →
      ∀ u ∈ (sweepOnce uf df now s).uploads, u.id ≠ r.id) ∧
    (∀ r ∈ s.uploads, expiredB now r = true →
      getUpload (sweepOnce (fun _ => false) (fun _ => false) now s) r.id = none ∧
      (∀ v ∈ listUploads (sweepOnce (fun _ => false) (fun _ => false) now s), v.id ≠ r.id) ∧
      (∀ q tag : Option String,
        ∀ v ∈ search (sweepOnce (fun _ => false) (fun _ => false) now s) q tag, v.id ≠ r.id) ∧
      (∀ month : Option String,
        ∀ v ∈ leaderboard (sweepOnce (fun _ => false) (fun _ => false) now s) month,
          v.id ≠ r.id) ∧
      r.filename ∉ (sweepOnce (fun _ => false) (fun _ => false) now s).blobs) := by
  have hinj := List.inj_on_of_nodup_map hids
  have hchar : (sweepOnce (fun _ => false) (fun _ => false) now s).uploads
      = s.uploads.filter fun r => !(expiredB now r) := by
    rw [show sweepOnce (fun _ => false) (fun _ => false) now s
        = (s.uploads.filter (expiredB now)).foldl
            (sweepStep (fun _ => false) (fun _ => false)) s from rfl,
      (sweepFold_state (fun _ => false) (fun _ => false) _ s).1]
    apply List.filter_congr
    intro u hu
    cases hexp : expiredB now u with
    | true =>
      have : (s.uploads.filter (expiredB now)).any
          (fun e => !(fun _ : Nat => false) e.id && u.id == e.id) = true :=
        List.any_eq_true.mpr ⟨u, List.mem_filter.mpr ⟨hu, hexp⟩, by simp⟩
      rw [this]
    | false =>
      have : (s.uploads.filter (expiredB now)).any
          (fun e => !(fun _ : Nat => false) e.id && u.id == e.id) = false := by
        rw [← Bool.not_eq_true]
        intro hany
        obtain ⟨e, hesel, heq⟩ := List.any_eq_true.mp hany
        obtain ⟨hes, heexp⟩ := List.mem_filter.mp hesel
        have hide : u.id = e.id := by
          have := heq
          simp only [Bool.not_false, Bool.true_and] at this
          exact beq_iff_eq.mp this
        have : e = u := hinj hes hu hide.symm
        rw [this] at heexp
        rw [heexp] at hexp
        cases hexp
      rw [this]
  refine ⟨hchar, ?_, ?_, ?_⟩
  · intro r hr hexp
    rw [hchar]
    exact List.mem_filter.mpr ⟨hr, by simp [hexp]⟩
  · exact fun uf df r hr hexp hdf =>
      sweepOnce_id_removed uf df now s r hr hexp hdf
  · intro r hr hexp
    have habs := sweepOnce_id_removed (fun _ => false) (fun _ => false) now s r hr hexp rfl
    refine ⟨?_, ?_, ?_, ?_, ?_⟩
    · show (((sweepOnce (fun _ => false) (fun _ => false) now s).uploads.find?
        (fun x => x.id == r.id)).map UploadRow.toView) = none
      rw [List.find?_eq_none.mpr]
      · rfl
      · intro x hx hbeq
        exact habs x hx (beq_iff_eq.mp hbeq)
    · intro v hv
      rw [listUploads, List.mem_insertionSort] at hv
      obtain ⟨u, hu, rfl⟩ := List.mem_map.mp hv
      exact habs u hu
    · intro q tag v hv
      rw [search, List.mem_insertionSort] at hv
      obtain ⟨u, hu, rfl⟩ := List.mem_map.mp hv
      exact habs u (List.mem_filter.mp hu).1
    · intro month v hv
      rw [leaderboard, List.mem_insertionSort] at hv
      obtain ⟨u, hu, rfl⟩ := List.mem_map.mp hv
      exact habs u (List.mem_filter.mp hu).1
    · exact sweepOnce_blob_removed (fun _ => false) (fun _ => false) now s r hr hexp rfl

/-- C5 witness: a two-row store where row 1 expired and row 2 has no
expiry: the sweep removes row 1 and its blob, keeps row 2. -/
theorem c5_expiry_sweep_witness :
    (sweepOnce (fun _ => false) (fun _ => false) 1000
        ⟨[⟨1, "a", "", "", "f1.png", "o1.png", "u", 0, 0, "2024-01-01 00:00:00", "AAAAAA", some 500⟩,
          ⟨2, "b", "", "", "f2.png", "o2.png", "u", 0, 0, "2024-01-02 00:00:00", "BBBBBB", none⟩],
         [], ["f1.png", "f2.png"], 3, 1⟩).uploads
      = [⟨2, "b", "", "", "f2.png", "o2.png", "u", 0, 0, "2024-01-02 00:00:00", "BBBBBB", none⟩] ∧
    getUpload (sweepOnce (fun _ => false) (fun _ => false) 1000
        ⟨[⟨1, "a", "", "", "f1.png", "o1.png", "u", 0, 0, "2024-01-01 00:00:00", "AAAAAA", some 500⟩,
          ⟨2, "b", "", "", "f2.png", "o2.png", "u", 0, 0, "2024-01-02 00:00:00", "BBBBBB", none⟩],
         [], ["f1.png", "f2.png"], 3, 1⟩) 1 = none ∧
    "f1.png" ∉ (sweepOnce (fun _ => false) (fun _ => false) 1000
        ⟨[⟨1, "a", "", "", "f1.png", "o1.png", "u", 0, 0, "2024-01-01 00:00:00", "AAAAAA", some 500⟩,
          ⟨2, "b", "", "", "f2.png", "o2.png", "u", 0, 0, "2024-01-02 00:00:00", "BBBBBB", none⟩],
         [], ["f1.png", "f2.png"], 3, 1⟩).blobs := by
  have h := c5_expiry_sweep 1000
    ⟨[⟨1, "a", "", "", "f1.png", "o1.png", "u", 0, 0, "2024-01-01 00:00:00", "AAAAAA", some 500⟩,
      ⟨2, "b", "", "", "f2.png", "o2.png", "u", 0, 0, "2024-01-02 00:00:00", "BBBBBB", none⟩],
     [], ["f1.png", "f2.png"], 3, 1⟩ (by decide)
  have h4 := h.2.2.2 ⟨1, "a", "", "", "f1.png", "o1.png", "u", 0, 0,
    "2024-01-01 00:00:00", "AAAAAA", some 500⟩ (by simp) (by decide)
  refine ⟨?_, h4.1, h4.2.2.2.2⟩
  rw [h.1]
  rfl

/-! ## C9 — leaderboard ordering and month restriction -/

/-- The two-digit rendering of a month number 1-12 (the `MM` field of the
stored timestamps). -/
def twoDigitStr (m : Nat) : String :=
  if m < 10 then String.mk ('0' :: (toString m).data) else toString m

/-- C9: for any two returned leaderboard entries A before B, either
A.like_count > B.like_count, or they tie on likes and
A.download_count ≥ B.download_count; with no month parameter the rows are
unrestricted, and with a month m (1-12) exactly the uploads whose stored
upload date carries that calendar month (independent of the year digits)
are returned. -/
theorem c9_leaderboard_order (s : ServerState) (month : Option String) :
    List.Pairwise (fun a b : UploadView =>
      b.like_count < a.like_count ∨
        (a.like_count = b.like_count ∧ b.download_count ≤ a.download_count))
      (leaderboard s month) ∧
    (∀ v : UploadView, v ∈ leaderboard s none ↔ v ∈ s.uploads.map UploadRow.toView) ∧
    (∀ m : Nat, 1 ≤ m → m ≤ 12 →
      ∀ v : UploadView, v ∈ leaderboard s (some (toString m)) ↔
        (v ∈ s.uploads.map UploadRow.toView ∧ monthOfDate v.upload_date = twoDigitStr m)) := by
  refine ⟨List.sorted_insertionSort lbOrder _, ?_, ?_⟩
  · intro v
    rw [leaderboard, List.mem_insertionSort]
    constructor
    · intro hv
      obtain ⟨u, hu, rfl⟩ := List.mem_map.mp hv
      exact List.mem_map_of_mem _ (List.mem_filter.mp hu).1
    · intro hv
      obtain ⟨u, hu, rfl⟩ := List.mem_map.mp hv
      exact List.mem_map_of_mem _ (List.mem_filter.mpr ⟨hu, rfl⟩)
  · intro m h1 h12 v
    have hts : jsTruthy (some (toString m)) = true := by
      interval_cases m <;> decide
    have hpad : padStart2 (toString m) = twoDigitStr m := by
      interval_cases m <;> rfl
    rw [leaderboard, List.mem_insertionSort]
    constructor
    · intro hv
      obtain ⟨u, hu, rfl⟩ := List.mem_map.mp hv
      obtain ⟨hus, hmm⟩ := List.mem_filter.mp hu
      refine ⟨List.mem_map_of_mem _ hus, ?_⟩
      have hbeq : (monthOfDate u.upload_date == padStart2 (toString m)) = true := by
        simpa [monthMatches, hts] using hmm
      show monthOfDate u.upload_date = twoDigitStr m
      rw [← hpad]
      exact beq_iff_eq.mp hbeq
    · rintro ⟨hv, hmonth⟩
      obtain ⟨u, hu, rfl⟩ := List.mem_map.mp hv
      refine List.mem_map_of_mem _ (List.mem_filter.mpr ⟨hu, ?_⟩)
      have hmonth2 : monthOfDate u.upload_date = twoDigitStr m := hmonth
      simp only [monthMatches, hts, if_true, Option.getD_some, hpad]
      exact beq_iff_eq.mpr hmonth2

/-- C9 witness: in a concrete two-row store, the May (month 5) filter
returns exactly the May upload. -/
theorem c9_leaderboard_order_witness :
    ((⟨1, "a", "", "", "f", "o", "u", 5, 2, "2024-05-01 00:00:00"⟩ : UploadView) ∈
      leaderboard ⟨[⟨1, "a", "", "", "f", "o", "u", 5, 2, "2024-05-01 00:00:00", "A", none⟩,
                    ⟨2, "b", "", "", "g", "p", "u", 1, 9, "2024-06-01 00:00:00", "B", none⟩],
                   [], [], 3, 1⟩ (some "5")) ∧
    ¬ ((⟨2, "b", "", "", "g", "p", "u", 1, 9, "2024-06-01 00:00:00"⟩ : UploadView) ∈
      leaderboard ⟨[⟨1, "a", "", "", "f", "o", "u", 5, 2, "2024-05-01 00:00:00", "A", none⟩,
                    ⟨2, "b", "", "", "g", "p", "u", 1, 9, "2024-06-01 00:00:00", "B", none⟩],
                   [], [], 3, 1⟩ (some "5")) := by
  have h := (c9_leaderboard_order
    ⟨[⟨1, "a", "", "", "f", "o", "u", 5, 2, "2024-05-01 00:00:00", "A", none⟩,
      ⟨2, "b", "", "", "g", "p", "u", 1, 9, "2024-06-01 00:00:00", "B", none⟩],
     [], [], 3, 1⟩ (some "5")).2.2 5 (by decide) (by decide)
  constructor
  · exact (h _).mpr ⟨by simp [UploadRow.toView], by decide⟩
  · intro hmem
    have := ((h _).mp hmem).2
    revert this
    decide

/-! ## C8 — search: LIKE semantics versus substring containment -/

/-- A leading `%` matches iff the rest of the pattern matches some suffix. -/
theorem likeMatch_percent_iff (ps : List Char) (t : List Char) :
    likeMatch ('%' :: ps) t = true ↔ ∃ n, likeMatch ps (t.drop n) = true := by
  show ((List.range (t.length + 1)).any fun n => likeMatch ps (t.drop n)) = true ↔ _
  rw [List.any_eq_true]
  constructor
  · rintro ⟨n, _, hn⟩
    exact ⟨n, hn⟩
  · rintro ⟨n, hn⟩
    by_cases h : n ≤ t.length
    · exact ⟨n, List.mem_range.mpr (by omega), hn⟩
    · refine ⟨t.length, List.mem_range.mpr (by omega), ?_⟩
      rw [List.drop_length]
      rwa [List.drop_eq_nil_of_le (by omega)] at hn

/-- A wildcard-free pattern followed by `%` matches iff it is a
case-folded prefix. -/
theorem likeMatch_plain_percent (q : List Char)
    (hw : ∀ c ∈ q, c ≠ '%' ∧ c ≠ '_') :
    ∀ t : List Char,
      likeMatch (q ++ ['%']) t = (q.map Char.toLower).isPrefixOf (t.map Char.toLower) := by
  have hall : ∀ t : List Char, likeMatch ['%'] t = true := by
    intro t
    rw [show likeMatch ['%'] t
        = ((List.range (t.length + 1)).any fun n => likeMatch [] (t.drop n)) from rfl,
      List.any_eq_true]
    exact ⟨t.length, List.mem_range.mpr (by omega),
      by simp [likeMatch, List.drop_length]⟩
  induction q with
  | nil =>
    intro t
    rw [List.nil_append, hall t]
    simp [List.isPrefixOf]
  | cons c q ih =>
    intro t
    have hc := hw c (List.mem_cons_self c q)
    have hq : ∀ x ∈ q, x ≠ '%' ∧ x ≠ '_' := fun x hx => hw x (List.mem_cons_of_mem c hx)
    cases t with
    | nil =>
      simp only [List.cons_append, likeMatch, if_neg hc.1, List.map_cons]
      simp [List.isPrefixOf]
    | cons h ts =>
      simp only [List.cons_append, likeMatch, if_neg hc.1, if_neg hc.2, List.map_cons,
        List.isPrefixOf, List.append_eq]
      rw [ih hq ts]

/-- Substring containment is prefix-of-some-suffix. -/
theorem isSubstrOf_iff (q : List Char) :
    ∀ t : List Char, (isSubstrOf q t = true ↔ ∃ n, q.isPrefixOf (t.drop n) = true)
  | [] => by
    show q.isEmpty = true ↔ _
    constructor
    · intro h
      refine ⟨0, ?_⟩
      cases q with
      | nil => rfl
      | cons c cs => simp at h
    · rintro ⟨n, hn⟩
      rw [List.drop_nil] at hn
      cases q with
      | nil => rfl
      | cons c cs => simp [List.isPrefixOf] at hn
  | h :: ts => by
    show (q.isPrefixOf (h :: ts) || isSubstrOf q ts) = true ↔ _
    constructor
    · intro hor
      rcases Bool.or_eq_true_iff.mp hor with h1 | h2
      · exact ⟨0, h1⟩
      · obtain ⟨n, hn⟩ := (isSubstrOf_iff q ts).mp h2
        exact ⟨n + 1, hn⟩
    · rintro ⟨n, hn⟩
      cases n with
      | zero =>
        rw [List.drop_zero] at hn
        exact Bool.or_eq_true_iff.mpr (Or.inl hn)
      | succ n =>
        exact Bool.or_eq_true_iff.mpr (Or.inr ((isSubstrOf_iff q ts).mpr ⟨n, hn⟩))

/-- For a wildcard-free needle, the handler's `LIKE '%needle%'` match is
exactly case-folded substring containment. -/
theorem likeMatch_wrapped_eq (q t : List Char) (hw : ∀ c ∈ q, c ≠ '%' ∧ c ≠ '_') :
    likeMatch ('%' :: (q ++ ['%'])) t
      = isSubstrOf (q.map Char.toLower) (t.map Char.toLower) := by
  have hiff : likeMatch ('%' :: (q ++ ['%'])) t = true
      ↔ isSubstrOf (q.map Char.toLower) (t.map Char.toLower) = true := by
    rw [likeMatch_percent_iff, isSubstrOf_iff]
    constructor
    · rintro ⟨n, hn⟩
      rw [likeMatch_plain_percent q hw] at hn
      exact ⟨n, by rwa [← List.map_drop]⟩
    · rintro ⟨n, hn⟩
      refine ⟨n, ?_⟩
      rw [likeMatch_plain_percent q hw, List.map_drop]
      exact hn
  cases h1 : likeMatch ('%' :: (q ++ ['%'])) t <;>
    cases h2 : isSubstrOf (q.map Char.toLower) (t.map Char.toLower)
  · rfl
  · exact absurd (hiff.mpr h2) (by simp [h1])
  · exact absurd (hiff.mp h1) (by simp [h2])
  · rfl

theorem sqlLikeContains_eq_containsCI (hay needle : String)
    (hw : noWildcards needle = true) :
    sqlLikeContains hay needle = containsCI hay needle := by
  have hw2 : ∀ c ∈ needle.data, c ≠ '%' ∧ c ≠ '_' := by
    intro c hc
    have hcc := List.all_eq_true.mp hw c hc
    simp only [Bool.and_eq_true, bne_iff_ne, ne_eq] at hcc
    exact hcc
  exact likeMatch_wrapped_eq needle.data hay.data hw2

theorem containsCI_empty (hay : String) : containsCI hay "" = true := by
  show isSubstrOf [] (hay.data.map Char.toLower) = true
  cases hay.data.map Char.toLower with
  | nil => rfl
  | cons c cs => simp [isSubstrOf, List.isPrefixOf]

/-- C8 counterexample: SQLite LIKE is case-insensitive for the tag filter
too. Searching tag "art" returns the upload tagged "ART", which does not
contain "art" as a (case-sensitive) substring — so Search does not return
exactly the set satisfying the claim's filters. -/
theorem c8_counterexample_tag_case :
    (⟨1, "x", "", "ART", "f", "o", "u", 0, 0, "2024-01-01 00:00:00"⟩ : UploadView) ∈
      search ⟨[⟨1, "x", "", "ART", "f", "o", "u", 0, 0,
        "2024-01-01 00:00:00", "A", none⟩], [], [], 2, 1⟩ none (some "art") ∧
    containsCS "ART" "art" = false := by
  constructor
  · decide
  · decide

/-- C8 (amended): for wildcard-free filters, Search returns exactly the
uploads whose title or description contains q as an ASCII-case-insensitive
substring (when q is supplied) and whose tags contain tag as an
ASCII-case-insensitive — not case-sensitive — substring (when tag is
supplied); absent filters impose no constraint, and the results are
ordered by upload date descending. -/
theorem c8_search_exact (s : ServerState) (q tag : Option String)
    (hq : ∀ x ∈ q, noWildcards x = true) (ht : ∀ x ∈ tag, noWildcards x = true) :
    List.Pairwise (fun a b : UploadView =>
      lexLe b.upload_date.data a.upload_date.data = true) (search s q tag) ∧
    (∀ v : UploadView, v ∈ search s q tag ↔
      (v ∈ s.uploads.map UploadRow.toView ∧
       (∀ x ∈ q, containsCI v.title x = true ∨ containsCI v.description x = true) ∧
       (∀ x ∈ tag, containsCI v.tags x = true))) := by
  refine ⟨List.sorted_insertionSort dateOrder _, ?_⟩
  have hqr : ∀ t1 t2 : String,
      ((if jsTruthy q then
          sqlLikeContains t1 (q.getD "") || sqlLikeContains t2 (q.getD "")
        else true) = true)
      ↔ (∀ x ∈ q, containsCI t1 x = true ∨ containsCI t2 x = true) := by
    intro t1 t2
    cases q with
    | none => simp [jsTruthy]
    | some x =>
      have hxw := hq x rfl
      by_cases hx : x = ""
      · subst hx
        simp [jsTruthy, containsCI_empty]
      · rw [show jsTruthy (some x) = true by simp [jsTruthy, hx], if_pos rfl,
          Option.getD_some, sqlLikeContains_eq_containsCI t1 x hxw,
          sqlLikeContains_eq_containsCI t2 x hxw, Bool.or_eq_true_iff]
        constructor
        · intro h y hy
          cases hy
          exact h
        · intro h
          exact h x rfl
  have htr : ∀ t3 : String,
      ((if jsTruthy tag then sqlLikeContains t3 (tag.getD "") else true) = true)
      ↔ (∀ x ∈ tag, containsCI t3 x = true) := by
    intro t3
    cases tag with
    | none => simp [jsTruthy]
    | some x =>
      have hxw := ht x rfl
      by_cases hx : x = ""
      · subst hx
        simp [jsTruthy, containsCI_empty]
      · rw [show jsTruthy (some x) = true by simp [jsTruthy, hx], if_pos rfl,
          Option.getD_some, sqlLikeContains_eq_containsCI t3 x hxw]
        constructor
        · intro h y hy
          cases hy
          exact h
        · intro h
          exact h x rfl
  intro v
  rw [search, List.mem_insertionSort]
  constructor
  · intro hv
    obtain ⟨u, hu, rfl⟩ := List.mem_map.mp hv
    obtain ⟨hus, hmatch⟩ := List.mem_filter.mp hu
    rw [searchMatches, Bool.and_eq_true] at hmatch
    exact ⟨List.mem_map_of_mem _ hus, (hqr u.title u.description).mp hmatch.1,
      (htr u.tags).mp hmatch.2⟩
  · rintro ⟨hv, hqc, htc⟩
    obtain ⟨u, hu, rfl⟩ := List.mem_map.mp hv
    refine List.mem_map_of_mem _ (List.mem_filter.mpr ⟨hu, ?_⟩)
    rw [searchMatches, Bool.and_eq_true]
    exact ⟨(hqr u.title u.description).mpr hqc, (htr u.tags).mpr htc⟩

/-- C8 witness: a concrete search with q matching the description
case-insensitively returns the row; a non-matching q does not. -/
theorem c8_search_exact_witness :
    ((⟨1, "Sunset", "a NICE photo", "art", "f", "o", "u", 0, 0,
        "2024-01-01 00:00:00"⟩ : UploadView) ∈
      search ⟨[⟨1, "Sunset", "a NICE photo", "art", "f", "o", "u", 0, 0,
        "2024-01-01 00:00:00", "A", none⟩], [], [], 2, 1⟩ (some "nice") (some "art")) := by
  have h := (c8_search_exact ⟨[⟨1, "Sunset", "a NICE photo", "art", "f", "o", "u", 0, 0,
      "2024-01-01 00:00:00", "A", none⟩], [], [], 2, 1⟩ (some "nice") (some "art")
    (by decide) (by decide)).2
  exact (h _).mpr ⟨by simp [UploadRow.toView], by decide, by decide⟩

end DigitalResidue
